import Mathlib

/-!
Verification of the language-inventory script (src/repository-languages.py).

The script enumerates repositories per project over a hosting API, clones
each one, runs a language detector over the clone, accumulates per-repository
language percentages into per-project tables and an overall total, normalizes
the total to percentages summing to 100, and writes a spreadsheet.

Embedding choices:
- Python dicts become insertion-ordered association lists `List (String × ℚ)`;
  percentages (Python floats) become rationals.
- Python exceptions become `Except Unit`; a caught exception is the
  `Except.error` branch of the embedded function.
- External collaborators (hosting API iterator, git clone, the linguist tool)
  become explicit environment values describing what the external call yields
  or whether it raises.
-/

namespace RepoLang

/-- A Python dict from language name to percentage, in insertion order. -/
abbrev LangMap := List (String × ℚ)

/-- Membership test `language in d` of a Python dict. -/
def hasKey (m : LangMap) (k : String) : Bool :=
  match m with
  | [] => false
  | (k', _) :: rest => k' = k || hasKey rest k

/-- Python `d.get(k, 0)`: the value stored under `k`, or 0 when absent. -/
def lookupD (m : LangMap) (k : String) : ℚ :=
  match m with
  | [] => 0
  | (k', v) :: rest => if k' = k then v else lookupD rest k

/-- One iteration of the accumulation loop in `main` (lines 136-140 of the
source): `overall_languages[language] += float(percentage)` when the language
is already present, `overall_languages[language] = float(percentage)`
otherwise. -/
def addLang (totals : LangMap) (lang : String) (p : ℚ) : LangMap :=
  if hasKey totals lang then
    totals.map (fun kv => if kv.1 = lang then (kv.1, kv.2 + p) else kv)
  else
    totals ++ [(lang, p)]

/-- The accumulation of one repository's stats into the overall totals:
the loop `for language, percentage in language_stats.items()` at
lines 136-140 of `main`. -/
def accumulate (totals stats : LangMap) : LangMap :=
  stats.foldl (fun t kv => addLang t kv.1 kv.2) totals

/-- The summing loop at lines 151-153 of `main`:
`for value in overall_languages.values(): total_percentage += value`. -/
def totalPercentage (m : LangMap) : ℚ :=
  m.foldl (fun acc kv => acc + kv.2) 0

/-- The normalization loop at lines 150-155 of `main`: each value is replaced
by `value / total_percentage * 100`.  When the dict is empty the loop body
never runs, so no division happens; when it is non-empty and the total is
zero, the first division raises `ZeroDivisionError` (Python raises on float
division by zero), modelled as `Except.error ()`. -/
def normalize (m : LangMap) : Except Unit LangMap :=
  match m with
  | [] => Except.ok []
  | _ :: _ =>
    if totalPercentage m = 0 then Except.error ()
    else Except.ok (m.map (fun kv => (kv.1, kv.2 / totalPercentage m * 100)))

/-- What the external `ghl.linguist` call returns when it does not raise:
either a list of (language, percentage) tuples or a dict (lines 51-56). -/
inductive LinguistResult where
  | tuples (l : List (String × ℚ))
  | dict (m : LangMap)
deriving DecidableEq

/-- Python dict insertion `d[k] = v`: overwrite when present, append when
absent. -/
def dictInsert (m : LangMap) (k : String) (v : ℚ) : LangMap :=
  if hasKey m k then
    m.map (fun kv => if kv.1 = k then (kv.1, v) else kv)
  else
    m ++ [(k, v)]

/-- The dict comprehension at line 55:
`{lang: perc for lang, perc in language_stats}`. -/
def pairsToMap (l : List (String × ℚ)) : LangMap :=
  l.foldl (fun m kv => dictInsert m kv.1 kv.2) []

/-- `analyze_languages_with_linguist` (lines 47-60): calls the external
detector, converts a list result to a dict, passes a dict through, and on any
exception returns the empty dict.  The argument is what the external call
does: a result of one of the two shapes, or a raise. -/
def analyze_languages_with_linguist (r : Except Unit LinguistResult) : LangMap :=
  match r with
  | Except.error _ => []
  | Except.ok (LinguistResult.tuples l) => pairsToMap l
  | Except.ok (LinguistResult.dict m) => m

/-- One step of the repository iterator of `project.repositories.each()`:
it yields a repository slug or raises. -/
abbrev IterEvent := Except Unit String

/-- The loop `for repo in repos: repositories.append(repo.slug)` together
with the surrounding try/except of `get_repositories_in_project`
(lines 20-31): an exception ends the loop, is caught, and the list built so
far is returned. -/
def appendSlugs (acc : List String) (events : List IterEvent) : List String :=
  match events with
  | [] => acc
  | Except.ok slug :: rest => appendSlugs (acc ++ [slug]) rest
  | Except.error _ :: _ => acc

/-- `get_repositories_in_project` (lines 20-31).  The argument describes the
external calls: `Except.error` when `projects.get` or `repositories.each()`
itself raises before yielding anything, otherwise the sequence of iterator
events. -/
def get_repositories_in_project (fetch : Except Unit (List IterEvent)) : List String :=
  match fetch with
  | Except.error _ => []
  | Except.ok events => appendSlugs [] events

/-- Modelled from the spec sentence the claim cites, for comparison with
`get_repositories_in_project`: the slugs yielded before the first raise. -/
def slugsBeforeFirstError (events : List IterEvent) : List String :=
  match events with
  | [] => []
  | Except.ok slug :: rest => slug :: slugsBeforeFirstError rest
  | Except.error _ :: _ => []

/-- The `repo_languages` dict of one project: repository slug to its language
stats, in insertion order. -/
abbrev ProjectTable := List (String × LangMap)

/-- The `project_languages` dict: project key to its table, in insertion
order. -/
abbrev ProjectTables := List (String × ProjectTable)

/-- The union of languages across a project's repositories, built in
`save_to_excel` (lines 72-75): `all_languages.update(repo_langs.keys())` for
each repository, a set modelled as an insertion-ordered list without
duplicates. -/
def allLanguages (repoLanguages : ProjectTable) : List String :=
  repoLanguages.foldl
    (fun acc kv =>
      kv.2.foldl (fun a entry => if a.contains entry.1 then a else a ++ [entry.1]) acc)
    []

/-- The rows of one project's sheet, built in `save_to_excel` (lines 77-89):
one row per repository, one cell per language of the union, each cell
`repo_langs.get(lang, 0)` (line 83). -/
def projectSheet (repoLanguages : ProjectTable) : List (String × List (String × ℚ)) :=
  repoLanguages.map
    (fun kv => (kv.1, (allLanguages repoLanguages).map (fun lang => (lang, lookupD kv.2 lang))))

/-- The per-project sheets written by the loop at lines 68-92, one per entry
of `project_languages`, named after the project key. -/
def projectSheetNames (tables : ProjectTables) : List String :=
  tables.map Prod.fst

/-- All sheet names written by `save_to_excel`: the per-project sheets, then
the final sheet at lines 94-97. -/
def sheetNames (tables : ProjectTables) : List String :=
  projectSheetNames tables ++ ["Overall Summary"]

/-- The environment of one repository in the orchestration loop: its slug,
whether the `git clone` at line 40 succeeds, and what `ghl.linguist` returns
on the cloned directory when the clone succeeded. -/
structure RepoEnv where
  slug : String
  cloneOk : Bool
  linguistResult : Except Unit LinguistResult

/-- What the `ghl.linguist` call at line 51 does for a repository: when the
clone failed, `clone_dir` is absent (the scratch directory is created only by
the clone and removed at line 143 after each repository), so the external
tool raises; otherwise it behaves as the environment says. -/
def linguistRun (e : RepoEnv) : Except Unit LinguistResult :=
  if e.cloneOk then e.linguistResult else Except.error ()

/-- The language stats recorded for one repository by `main` (lines 127-133):
clone, then `analyze_languages_with_linguist` on the clone directory. -/
def repoStats (e : RepoEnv) : LangMap :=
  analyze_languages_with_linguist (linguistRun e)

/-- The environment of one project: its key and the repositories returned by
`get_repositories_in_project`, each with its per-repository environment. -/
structure ProjectEnv where
  key : String
  repos : List RepoEnv

/-- The body of the loop over project keys in `main` (lines 115-148), acting
on the pair (`project_languages`, `overall_languages`): when the listing
yields no repositories, only a message is printed (line 148) and the state is
unchanged; otherwise each repository is cloned, analyzed, recorded in
`repo_languages` and accumulated into the overall totals, and the project's
table is stored under its key (line 146). -/
def processProject (st : ProjectTables × LangMap) (p : ProjectEnv) :
    ProjectTables × LangMap :=
  match p.repos with
  | [] => st
  | _ :: _ =>
    (st.1 ++ [(p.key, p.repos.map (fun e => (e.slug, repoStats e)))],
     p.repos.foldl (fun t e => accumulate t (repoStats e)) st.2)

/-- `main` after authentication (lines 112-158): fold the project loop over
the configured projects starting from empty dicts, then normalize the overall
totals and hand both to the report writer.  `Except.error ()` is the
uncaught `ZeroDivisionError` of the normalization loop, which aborts the run
before any report is written. -/
def runMain (projects : List ProjectEnv) : Except Unit (ProjectTables × LangMap) :=
  match normalize (projects.foldl processProject ([], [])).2 with
  | Except.error e => Except.error e
  | Except.ok n => Except.ok ((projects.foldl processProject ([], [])).1, n)

/-- The first example repository of the spec: R1 = Go 80, Python 20. -/
def R1ex : LangMap := [("Go", 80), ("Python", 20)]

/-- The second example repository of the spec: R2 = Go 50, JS 50. -/
def R2ex : LangMap := [("Go", 50), ("JS", 50)]

/-- A repository whose clone succeeds and whose analysis reports a single
language at percentage zero (a tiny share the detector rounds to 0.0). -/
def repoZeroShare : RepoEnv :=
  { slug := "A", cloneOk := true, linguistResult := Except.ok (LinguistResult.dict [("Go", 0)]) }

/-- A repository whose clone fails; had it been cloned, the detector would
have reported Go at 5 percent. -/
def repoCloneFails : RepoEnv :=
  { slug := "B", cloneOk := false, linguistResult := Except.ok (LinguistResult.dict [("Go", 5)]) }

/-- The same repository as `repoCloneFails` but with the clone succeeding. -/
def repoCloneOk : RepoEnv :=
  { slug := "B", cloneOk := true, linguistResult := Except.ok (LinguistResult.dict [("Go", 5)]) }

lemma lookupD_cons (kv : String × ℚ) (rest : LangMap) (k : String) :
    lookupD (kv :: rest) k = if kv.1 = k then kv.2 else lookupD rest k := rfl

lemma hasKey_cons (kv : String × ℚ) (rest : LangMap) (k : String) :
    hasKey (kv :: rest) k = (decide (kv.1 = k) || hasKey rest k) := rfl

lemma hasKey_iff_mem (m : LangMap) (k : String) :
    hasKey m k = true ↔ k ∈ m.map Prod.fst := by
  induction m with
  | nil => simp [hasKey]
  | cons kv rest ih =>
    rw [hasKey_cons]
    simp only [Bool.or_eq_true, decide_eq_true_eq, List.map_cons, List.mem_cons, ih]
    exact or_congr_left eq_comm

lemma hasKey_eq_false (m : LangMap) (k : String) (h : k ∉ m.map Prod.fst) :
    hasKey m k = false := by
  rw [Bool.eq_false_iff]
  intro hc
  exact h ((hasKey_iff_mem m k).mp hc)

lemma lookupD_of_hasKey_false (m : LangMap) (k : String) (h : hasKey m k = false) :
    lookupD m k = 0 := by
  induction m with
  | nil => rfl
  | cons kv rest ih =>
    rw [hasKey_cons, Bool.or_eq_false_iff] at h
    rw [lookupD_cons, if_neg (by simpa using h.1), ih h.2]

lemma lookupD_append (m m' : LangMap) (k : String) :
    lookupD (m ++ m') k = if hasKey m k then lookupD m k else lookupD m' k := by
  induction m with
  | nil => simp [lookupD, hasKey]
  | cons kv rest ih =>
    rw [List.cons_append]
    by_cases hk : kv.1 = k
    · rw [lookupD_cons, if_pos hk, lookupD_cons, if_pos hk, hasKey_cons]
      simp [hk]
    · rw [lookupD_cons, if_neg hk, ih, lookupD_cons, hasKey_cons]
      simp [hk]

lemma lookupD_map_add (m : LangMap) (l : String) (p : ℚ) (k : String) :
    lookupD (m.map fun kv => if kv.1 = l then (kv.1, kv.2 + p) else kv) k =
      if k = l ∧ hasKey m k = true then lookupD m k + p else lookupD m k := by
  induction m with
  | nil => simp [lookupD, hasKey]
  | cons kv rest ih =>
    have hfst : (if kv.1 = l then (kv.1, kv.2 + p) else kv).1 = kv.1 := by
      by_cases h : kv.1 = l <;> simp [h]
    have hsnd : (if kv.1 = l then (kv.1, kv.2 + p) else kv).2 =
        if kv.1 = l then kv.2 + p else kv.2 := by
      by_cases h : kv.1 = l <;> simp [h]
    simp only [List.map_cons, lookupD_cons, hasKey_cons, hfst, hsnd, ih]
    by_cases hk : kv.1 = k
    · by_cases hl : k = l
      · have hkl : kv.1 = l := hk.trans hl
        simp [hk, hl, hkl]
      · have hkl : ¬ kv.1 = l := fun h => hl (hk.symm.trans h)
        simp [hk, hl, hkl]
    · by_cases hl : k = l
      · have hkl : ¬ kv.1 = l := fun h => hk (h.trans hl.symm)
        simp [hl, hkl]
      · simp [hk, hl]

lemma lookupD_addLang (t : LangMap) (l : String) (p : ℚ) (k : String) :
    lookupD (addLang t l p) k = if k = l then lookupD t l + p else lookupD t k := by
  by_cases hl : hasKey t l
  · rw [addLang, if_pos hl, lookupD_map_add]
    by_cases hk : k = l
    · subst hk
      simp [hl]
    · simp [hk]
  · rw [addLang, if_neg hl, lookupD_append]
    by_cases hk : k = l
    · subst hk
      have h0 : lookupD t k = 0 := lookupD_of_hasKey_false t k (by simpa using hl)
      rw [if_neg (by simpa using hl), if_pos rfl, lookupD_cons, if_pos rfl, h0, zero_add]
    · rw [if_neg hk]
      by_cases ht : hasKey t k
      · simp [ht]
      · rw [if_neg (by simpa using ht), lookupD_cons, if_neg (fun h => hk h.symm),
          lookupD_of_hasKey_false t k (by simpa using ht)]
        rfl

lemma lookupD_accumulate (totals stats : LangMap)
    (h : (stats.map Prod.fst).Nodup) (lang : String) :
    lookupD (accumulate totals stats) lang = lookupD totals lang + lookupD stats lang := by
  induction stats generalizing totals with
  | nil => simp [accumulate, lookupD]
  | cons kv rest ih =>
    simp only [List.map_cons, List.nodup_cons] at h
    have step : accumulate totals (kv :: rest) = accumulate (addLang totals kv.1 kv.2) rest := rfl
    rw [step, ih _ h.2, lookupD_addLang, lookupD_cons]
    by_cases hl : lang = kv.1
    · subst hl
      have h0 : lookupD rest kv.1 = 0 :=
        lookupD_of_hasKey_false rest kv.1 (hasKey_eq_false rest kv.1 h.1)
      simp [h0]
    · rw [if_neg hl, if_neg (fun h' => hl h'.symm)]

lemma foldl_add_snd (m : LangMap) (a : ℚ) :
    m.foldl (fun acc kv => acc + kv.2) a = a + (m.map Prod.snd).sum := by
  induction m generalizing a with
  | nil => simp
  | cons kv rest ih =>
    simp only [List.foldl_cons, List.map_cons, List.sum_cons, ih]
    ring

lemma totalPercentage_eq_sum (m : LangMap) :
    totalPercentage m = (m.map Prod.snd).sum := by
  simpa using foldl_add_snd m 0

lemma normalize_of_total_ne_zero (m : LangMap) (hne : m ≠ [])
    (hT : totalPercentage m ≠ 0) :
    normalize m = Except.ok (m.map fun kv => (kv.1, kv.2 / totalPercentage m * 100)) := by
  cases m with
  | nil => exact absurd rfl hne
  | cons kv rest => simp [normalize, hT]

lemma sum_map_div_mul (m : LangMap) (T : ℚ) :
    ((m.map fun kv => (kv.1, kv.2 / T * 100)).map Prod.snd).sum =
      (m.map Prod.snd).sum / T * 100 := by
  induction m with
  | nil => simp
  | cons kv rest ih =>
    simp only [List.map_cons, List.sum_cons, ih]
    ring

lemma mem_keysFold (langs : LangMap) (acc : List String) (lang : String) :
    lang ∈ langs.foldl (fun a entry => if a.contains entry.1 then a else a ++ [entry.1]) acc ↔
      lang ∈ acc ∨ lang ∈ langs.map Prod.fst := by
  induction langs generalizing acc with
  | nil => simp
  | cons kv rest ih =>
    rw [List.foldl_cons, ih]
    by_cases hc : acc.contains kv.1
    · rw [if_pos hc]
      simp only [List.map_cons, List.mem_cons]
      constructor
      · rintro (h | h)
        · exact Or.inl h
        · exact Or.inr (Or.inr h)
      · rintro (h | h | h)
        · exact Or.inl h
        · exact Or.inl (by rw [h]; simpa using hc)
        · exact Or.inr h
    · rw [if_neg hc]
      simp only [List.mem_append, List.mem_singleton, List.map_cons, List.mem_cons]
      tauto

lemma mem_allLanguagesFold (t : ProjectTable) (acc : List String) (lang : String) :
    lang ∈ t.foldl
        (fun acc kv =>
          kv.2.foldl (fun a entry => if a.contains entry.1 then a else a ++ [entry.1]) acc)
        acc ↔
      lang ∈ acc ∨ ∃ kv ∈ t, lang ∈ kv.2.map Prod.fst := by
  induction t generalizing acc with
  | nil => simp
  | cons row rest ih =>
    rw [List.foldl_cons, ih, mem_keysFold]
    simp only [List.mem_cons]
    constructor
    · rintro ((h | h) | ⟨kv, hkv, h⟩)
      · exact Or.inl h
      · exact Or.inr ⟨row, Or.inl rfl, h⟩
      · exact Or.inr ⟨kv, Or.inr hkv, h⟩
    · rintro (h | ⟨kv, hkv | hkv, h⟩)
      · exact Or.inl (Or.inl h)
      · exact Or.inl (Or.inr (hkv ▸ h))
      · exact Or.inr ⟨kv, hkv, h⟩

lemma mem_allLanguages (t : ProjectTable) (lang : String) :
    lang ∈ allLanguages t ↔ ∃ kv ∈ t, lang ∈ kv.2.map Prod.fst := by
  rw [allLanguages, mem_allLanguagesFold]
  simp

lemma appendSlugs_eq (events : List IterEvent) (acc : List String) :
    appendSlugs acc events = acc ++ slugsBeforeFirstError events := by
  induction events generalizing acc with
  | nil => simp [appendSlugs, slugsBeforeFirstError]
  | cons ev rest ih =>
    cases ev with
    | ok slug =>
      rw [appendSlugs, slugsBeforeFirstError, ih, List.append_assoc, List.singleton_append]
    | error e => simp [appendSlugs, slugsBeforeFirstError]

lemma keys_dictInsert (m : LangMap) (k : String) (v : ℚ) :
    (dictInsert m k v).map Prod.fst =
      if hasKey m k then m.map Prod.fst else m.map Prod.fst ++ [k] := by
  by_cases h : hasKey m k
  · rw [dictInsert, if_pos h, if_pos h, List.map_map]
    apply List.map_congr_left
    intro kv _
    by_cases hk : kv.1 = k <;> simp [hk]
  · rw [dictInsert, if_neg h, if_neg h]
    simp

lemma keys_nodup_dictInsert (m : LangMap) (k : String) (v : ℚ)
    (h : (m.map Prod.fst).Nodup) : ((dictInsert m k v).map Prod.fst).Nodup := by
  rw [keys_dictInsert]
  by_cases hk : hasKey m k
  · rw [if_pos hk]
    exact h
  · rw [if_neg hk]
    have hkm : k ∉ m.map Prod.fst := fun hc => hk ((hasKey_iff_mem m k).mpr hc)
    rw [List.nodup_append]
    refine ⟨h, List.nodup_singleton k, ?_⟩
    intro a ha hak
    rw [List.mem_singleton] at hak
    subst hak
    exact hkm ha

lemma pairsToMap_fold_nodup (l : List (String × ℚ)) (m : LangMap)
    (h : (m.map Prod.fst).Nodup) :
    ((l.foldl (fun m kv => dictInsert m kv.1 kv.2) m).map Prod.fst).Nodup := by
  induction l generalizing m with
  | nil => exact h
  | cons kv rest ih =>
    rw [List.foldl_cons]
    exact ih _ (keys_nodup_dictInsert m kv.1 kv.2 h)

lemma pairsToMap_keys_nodup (l : List (String × ℚ)) :
    ((pairsToMap l).map Prod.fst).Nodup :=
  pairsToMap_fold_nodup l [] (by simp)

lemma foldl_processProject_no_key (projects : List ProjectEnv) (k : String)
    (h : ∀ p ∈ projects, p.key = k → p.repos = []) :
    ∀ st : ProjectTables × LangMap, k ∉ st.1.map Prod.fst →
      k ∉ (projects.foldl processProject st).1.map Prod.fst := by
  induction projects with
  | nil => exact fun st hst => hst
  | cons p rest ih =>
    intro st hst
    rw [List.foldl_cons]
    refine ih (fun q hq => h q (List.mem_cons_of_mem p hq)) _ ?_
    cases hrepos : p.repos with
    | nil =>
      simpa [processProject, hrepos] using hst
    | cons r rs =>
      have hkey : ¬ k = p.key := fun hk => by
        rw [h p (List.mem_cons_self p rest) hk.symm] at hrepos
        exact List.noConfusion hrepos
      simp [processProject, hrepos, hst, hkey]

/-- Claim C1: for every overall-totals mapping (nonnegative percentages
accumulated across repositories) containing at least one nonzero value, the
normalization step succeeds and produces a mapping whose values sum to
exactly 100. -/
theorem normalize_sums_to_100 (m : LangMap) (h0 : ∀ kv ∈ m, 0 ≤ kv.2)
    (hx : ∃ kv ∈ m, kv.2 ≠ 0) :
    ∃ m', normalize m = Except.ok m' ∧ totalPercentage m' = 100 := by
  obtain ⟨kv, hmem, hne⟩ := hx
  have hpos : 0 < totalPercentage m := by
    rw [totalPercentage_eq_sum]
    have h1 : 0 < kv.2 := lt_of_le_of_ne (h0 kv hmem) (Ne.symm hne)
    have h2 : kv.2 ≤ (m.map Prod.snd).sum := by
      refine List.single_le_sum ?_ _ (List.mem_map_of_mem Prod.snd hmem)
      intro x hx'
      obtain ⟨p, hp, rfl⟩ := List.mem_map.mp hx'
      exact h0 p hp
    linarith
  have hnil : m ≠ [] := by
    rintro rfl
    cases hmem
  refine ⟨_, normalize_of_total_ne_zero m hnil (ne_of_gt hpos), ?_⟩
  rw [totalPercentage_eq_sum, sum_map_div_mul, ← totalPercentage_eq_sum,
    div_self (ne_of_gt hpos), one_mul]

/-- Witness for C1 at the concrete mapping Go 80, Python 20. -/
theorem normalize_sums_to_100_at_example :
    ∃ m', normalize [("Go", (80 : ℚ)), ("Python", 20)] = Except.ok m' ∧
      totalPercentage m' = 100 :=
  normalize_sums_to_100 [("Go", (80 : ℚ)), ("Python", 20)]
    (by intro kv hkv; rcases List.mem_cons.mp hkv with rfl | hkv'; · norm_num
        rcases List.mem_cons.mp hkv' with rfl | h; · norm_num
        · cases h)
    ⟨("Go", (80 : ℚ)), by simp, by norm_num⟩

/-- Claim C2: the code faults on a non-empty all-zero totals mapping.  On the
totals `{"Go": 0.0}` the normalization loop divides by a zero total and
raises an uncontrolled `ZeroDivisionError` (the `Except.error` branch), while
on an empty totals mapping it terminates normally with an empty result; the
claimed defined empty/zero result therefore fails for the all-zero case. -/
theorem normalize_zero_total_raises :
    normalize [("Go", (0 : ℚ))] = Except.error () ∧
      normalize ([] : LangMap) = Except.ok [] := by
  constructor
  · simp [normalize, totalPercentage]
  · rfl

/-- Claim C3: accumulation is a plain pointwise sum — for stats with distinct
language keys, every language's entry in the accumulated totals is its old
value (0 when absent) plus its value in the stats; and on the spec's example
R1 = Go 80 / Python 20, R2 = Go 50 / JS 50 accumulation yields Go 130,
Python 20, JS 50, which normalizes to Go 65, Python 10, JS 25. -/
theorem accumulate_is_plain_sum :
    (∀ totals stats : LangMap, (stats.map Prod.fst).Nodup →
      ∀ lang, lookupD (accumulate totals stats) lang =
        lookupD totals lang + lookupD stats lang) ∧
    accumulate (accumulate [] R1ex) R2ex = [("Go", 130), ("Python", 20), ("JS", 50)] ∧
    normalize (accumulate (accumulate [] R1ex) R2ex) =
      Except.ok [("Go", 65), ("Python", 10), ("JS", 25)] := by
  refine ⟨fun totals stats h lang => lookupD_accumulate totals stats h lang, ?_, ?_⟩
  · simp [R1ex, R2ex, accumulate, addLang, hasKey]
    norm_num
  · have h : accumulate (accumulate [] R1ex) R2ex =
        [("Go", 130), ("Python", 20), ("JS", 50)] := by
      simp [R1ex, R2ex, accumulate, addLang, hasKey]
      norm_num
    rw [h]
    simp [normalize, totalPercentage]
    norm_num

/-- Claim C4: the per-project sheet ranges over the union of the languages of
the project's repositories (membership characterization of `allLanguages`),
and on the spec's example the sheet has columns Go, Python, JS with row R1 =
(80, 20, 0) and row R2 = (50, 0, 50), missing languages filled with zero. -/
theorem sheet_union_columns_rows :
    (∀ (t : ProjectTable) (lang : String),
      lang ∈ allLanguages t ↔ ∃ kv ∈ t, lang ∈ kv.2.map Prod.fst) ∧
    allLanguages [("R1", R1ex), ("R2", R2ex)] = ["Go", "Python", "JS"] ∧
    projectSheet [("R1", R1ex), ("R2", R2ex)] =
      [("R1", [("Go", 80), ("Python", 20), ("JS", 0)]),
       ("R2", [("Go", 50), ("Python", 0), ("JS", 50)])] := by
  refine ⟨mem_allLanguages, ?_, ?_⟩
  · simp [allLanguages, R1ex, R2ex]
  · simp [projectSheet, allLanguages, lookupD, R1ex, R2ex]

/-- Claim C5 counterexample: when the repository iterator yields one slug and
then raises, `get_repositories_in_project` returns the slug collected before
the failure, not an empty sequence. -/
theorem listing_partial_failure_not_empty :
    get_repositories_in_project (Except.ok [Except.ok "alpha", Except.error ()]) =
      ["alpha"] ∧
    get_repositories_in_project (Except.ok [Except.ok "alpha", Except.error ()]) ≠ [] := by
  constructor
  · rfl
  · decide

/-- Claim C5 as amended: on any failure the exception is caught and the slugs
collected so far are returned — the empty sequence when the failure happens
before any repository is enumerated, and the partial list of already-yielded
slugs when the failure happens partway through. -/
theorem listing_returns_slugs_collected :
    (∀ e : Unit, get_repositories_in_project (Except.error e) = []) ∧
    (∀ events : List IterEvent,
      get_repositories_in_project (Except.ok events) = slugsBeforeFirstError events) := by
  refine ⟨fun _ => rfl, fun events => ?_⟩
  show appendSlugs [] events = slugsBeforeFirstError events
  rw [appendSlugs_eq, List.nil_append]

/-- Claim C6: a clone failure can abort the whole run.  With repository A
analyzed to the single zero entry Go 0.0 and repository B failing to clone,
the surviving totals are non-empty with zero sum and the run dies in the
normalization loop with `ZeroDivisionError`, writing no report — although the
same run completes when B's clone succeeds, and the failed repository's own
entry is the empty mapping (no fabricated data). -/
theorem clone_failure_can_abort_run :
    runMain [{ key := "P", repos := [repoZeroShare, repoCloneFails] }] =
      Except.error () ∧
    runMain [{ key := "P", repos := [repoZeroShare, repoCloneOk] }] =
      Except.ok ([("P", [("A", [("Go", 0)]), ("B", [("Go", 5)])])], [("Go", 100)]) ∧
    repoStats repoCloneFails = [] := by
  refine ⟨?_, ?_, rfl⟩
  · norm_num [runMain, processProject, repoStats, linguistRun,
      analyze_languages_with_linguist, accumulate, addLang, hasKey, normalize,
      totalPercentage, repoZeroShare, repoCloneFails]
  · norm_num [runMain, processProject, repoStats, linguistRun,
      analyze_languages_with_linguist, accumulate, addLang, hasKey, normalize,
      totalPercentage, repoZeroShare, repoCloneOk]

/-- Claim C7: the analyzer turns a tuple-list result of the external detector
into a mapping (a dict whose keys are distinct), passes a dict result
through unchanged, and returns the empty mapping when the detector raises. -/
theorem analyze_normalizes_shapes :
    (∀ l : List (String × ℚ),
      analyze_languages_with_linguist (Except.ok (LinguistResult.tuples l)) = pairsToMap l ∧
        ((pairsToMap l).map Prod.fst).Nodup) ∧
    (∀ m : LangMap,
      analyze_languages_with_linguist (Except.ok (LinguistResult.dict m)) = m) ∧
    (∀ e : Unit, analyze_languages_with_linguist (Except.error e) = []) :=
  ⟨fun l => ⟨rfl, pairsToMap_keys_nodup l⟩, fun _ => rfl, fun _ => rfl⟩

/-- Claim C8: a project whose listing yields no repositories leaves the state
untouched (log and skip), so no entry for its key is created in the
per-project table and no per-project sheet is written for it; concretely,
processing the project "ABC" with an empty listing changes nothing. -/
theorem empty_listing_project_skipped :
    (∀ (st : ProjectTables × LangMap) (p : ProjectEnv),
      p.repos = [] → processProject st p = st) ∧
    (∀ (projects : List ProjectEnv) (k : String),
      (∀ p ∈ projects, p.key = k → p.repos = []) →
      k ∉ projectSheetNames (projects.foldl processProject ([], [])).1) ∧
    processProject ([], []) { key := "ABC", repos := [] } = ([], []) := by
  refine ⟨?_, ?_, rfl⟩
  · intro st p h
    simp [processProject, h]
  · intro projects k h
    exact foldl_processProject_no_key projects k h ([], []) (by simp)

/-- Claim C9: on an empty totals mapping the normalization loop never divides
and terminates normally with the empty mapping; the division-by-zero fault is
reached exactly on a non-empty mapping whose values sum to zero. -/
theorem empty_totals_no_division :
    normalize ([] : LangMap) = Except.ok [] ∧
    (∀ m : LangMap, normalize m = Except.error () ↔ m ≠ [] ∧ totalPercentage m = 0) := by
  refine ⟨rfl, fun m => ?_⟩
  cases m with
  | nil => simp [normalize]
  | cons kv rest =>
    by_cases h : totalPercentage (kv :: rest) = 0 <;> simp [normalize, h]

/-- Claim C10: on totals with a positive sum, normalization keeps the list of
language keys unchanged and multiplies every value by the same positive
factor 100 / total, so ratios and the relative order of any two values are
preserved. -/
theorem normalize_uniform_scaling (m : LangMap) (hpos : 0 < totalPercentage m) :
    normalize m =
      Except.ok (m.map fun kv => (kv.1, kv.2 * (100 / totalPercentage m))) ∧
    (m.map fun kv => (kv.1, kv.2 * (100 / totalPercentage m))).map Prod.fst =
      m.map Prod.fst ∧
    0 < 100 / totalPercentage m ∧
    (∀ x y : ℚ, x * (100 / totalPercentage m) ≤ y * (100 / totalPercentage m) ↔ x ≤ y) := by
  have hnil : m ≠ [] := by
    rintro rfl
    simp [totalPercentage] at hpos
  have hfac : 0 < 100 / totalPercentage m := div_pos (by norm_num) hpos
  refine ⟨?_, ?_, hfac, fun x y => mul_le_mul_right hfac⟩
  · rw [normalize_of_total_ne_zero m hnil (ne_of_gt hpos)]
    congr 1
    apply List.map_congr_left
    intro kv _
    rw [div_mul_eq_mul_div, mul_div_assoc]
  · rw [List.map_map]
    rfl

/-- Witness for C10 at the concrete mapping Go 80, Python 20 (total 100, so
the factor is 1). -/
theorem normalize_uniform_scaling_at_example :
    normalize [("Go", (80 : ℚ)), ("Python", 20)] =
      Except.ok ([("Go", (80 : ℚ)), ("Python", 20)].map
        fun kv => (kv.1, kv.2 * (100 / totalPercentage [("Go", (80 : ℚ)), ("Python", 20)]))) ∧
    ([("Go", (80 : ℚ)), ("Python", 20)].map
        fun kv => (kv.1, kv.2 * (100 / totalPercentage [("Go", (80 : ℚ)), ("Python", 20)]))).map
        Prod.fst = [("Go", (80 : ℚ)), ("Python", 20)].map Prod.fst ∧
    0 < 100 / totalPercentage [("Go", (80 : ℚ)), ("Python", 20)] ∧
    (∀ x y : ℚ, x * (100 / totalPercentage [("Go", (80 : ℚ)), ("Python", 20)]) ≤
        y * (100 / totalPercentage [("Go", (80 : ℚ)), ("Python", 20)]) ↔ x ≤ y) :=
  normalize_uniform_scaling [("Go", (80 : ℚ)), ("Python", 20)]
    (by norm_num [totalPercentage])

end RepoLang
